import Mathlib

/-!
Verification of the Node_RAG retrieval-augmented-generation pipeline.

This file is a shallow embedding of the TypeScript pipeline code:
  * `src/api/src/agents/retriever.ts`  (`retrieveDocuments`, content dedup)
  * `src/api/src/user-query-reranker.ts` (`rerankWithAzure`)
  * the summariser agent (`needsSummarization`, `summarizeDocuments`,
    `mapReduceSummarize`)
  * the classifier agent (`classifyQuestion`, `createFallbackResult`)
  * the answerer agent (`generateAnswer`, `buildGroundedPromptFromSummary`)
  * `src/api/src/orchestrator-simple.ts` (`SimpleRAGOrchestrator.execute`)
  * the `/query` route of `src/api/src/user-query-server 2.ts`

External services (embedding, vector search, reranking, chat completion)
are modelled by explicit outcome parameters; wall-clock timing fields and
log emission are outside the embedding.  JavaScript numbers are modelled
as rationals, JavaScript `Map` insertion-order semantics are modelled
explicitly, and thrown-then-caught exceptions are modelled with `Except`.
-/

/-- A search hit as returned by the vector index
(`SearchHit` in `user-query-types.ts`). -/
structure SearchHit where
  id : String
  content : String
  filename : String
  category : String
  createdUtc : String
  score : ℚ
deriving DecidableEq, Repr

/-- Question complexity labels (`QuestionComplexity` enum). -/
inductive QuestionComplexity where
  | simple
  | moderate
  | complex
deriving DecidableEq, Repr

/-- Question category labels (`QuestionCategory` enum). -/
inductive QuestionCategory where
  | hr
  | trading
  | technical
  | general
  | finance
  | compliance
deriving DecidableEq, Repr

/-- Total character count of the document contents
(the `reduce` inside `estimateTokenCount`). -/
def totalChars (documents : List SearchHit) : ℕ :=
  documents.foldl (fun sum doc => sum + doc.content.length) 0

/-- `estimateTokenCount` from the summariser agent:
`Math.ceil(totalChars / 4)`, here as the natural-number ceiling. -/
def estimateTokenCount (documents : List SearchHit) : ℕ :=
  (totalChars documents + 3) / 4

/-- `needsSummarization` from the summariser agent: summarise when more
than 10 documents, or a complex question with more than 5 documents, or
estimated tokens above 8000. -/
def needsSummarization (documents : List SearchHit)
    (complexity : QuestionComplexity) : Bool :=
  if documents.length > 10 then true
  else if complexity = QuestionComplexity.complex ∧ documents.length > 5 then true
  else if estimateTokenCount documents > 8000 then true
  else false

/-- The chunking loop of `mapReduceSummarize`
(`for (i = 0; i < len; i += 10) chunks.push(slice(i, i + 10))`). -/
def chunkDocuments : List SearchHit → List (List SearchHit)
  | [] => []
  | d :: ds => ((d :: ds).take 10) :: chunkDocuments ((d :: ds).drop 10)
termination_by l => l.length
decreasing_by
  simp only [List.length_drop, List.length_cons]
  omega

/-- One chat-completion call issued by the summarisation stage: either a
direct summarisation of a document group (with its `maxTokens` budget) or
the reduce call combining partial summaries. -/
inductive SummaryCall where
  | direct (docs : List SearchHit) (maxTokens : ℕ)
  | combine (summaries : List String)
deriving DecidableEq, Repr

/-- The chat calls `summarizeDocuments` issues: one direct call over the
whole input set (default token budget 2000). -/
def summarizeDocumentsCalls (documents : List SearchHit)
    (maxTokens : Option ℕ) : List SummaryCall :=
  [SummaryCall.direct documents (maxTokens.getD 2000)]

/-- The chat calls `mapReduceSummarize` issues: one direct call per
10-document chunk (budget 1000), then one combine call over the partial
summaries produced by the external model (`oracle`). -/
def mapReduceSummarizeCalls (documents : List SearchHit)
    (oracle : List SearchHit → String) : List SummaryCall :=
  ((chunkDocuments documents).map (fun c => SummaryCall.direct c 1000))
    ++ [SummaryCall.combine ((chunkDocuments documents).map oracle)]

/-- The summarisation chat calls `SimpleRAGOrchestrator.execute` issues:
when `needsSummarization` holds and documents are non-empty it calls
`summarizeDocuments` (never `mapReduceSummarize`) with no explicit
`maxTokens`. -/
def orchestratorSummaryCalls (documents : List SearchHit)
    (complexity : QuestionComplexity) : List SummaryCall :=
  if needsSummarization documents complexity ∧ documents.length > 0 then
    summarizeDocumentsCalls documents none
  else []

/-! ## Retriever: content deduplication (retriever.ts, step 2.5)

The source builds a JavaScript `Map` keyed by content and iterates over
the hits, replacing the value stored under an existing key only when the
new hit scores strictly higher; `Array.from(map.values())` then yields
the values in key-insertion order.  `upsertHit` performs one such `Map`
update on an association list that keeps the key-insertion order. -/

/-- One step of the dedup loop: update the insertion-ordered list of best
hits with `hit`, replacing the entry with the same content only when
`hit.score` is strictly greater, and appending when the content is new. -/
def upsertHit : List SearchHit → SearchHit → List SearchHit
  | [], hit => [hit]
  | best :: rest, hit =>
      if best.content = hit.content then
        (if hit.score > best.score then hit else best) :: rest
      else
        best :: upsertHit rest hit

/-- The whole dedup loop of `retrieveDocuments`
(`contentToBestHit` plus `Array.from(contentToBestHit.values())`). -/
def deduplicateHits (searchHits : List SearchHit) : List SearchHit :=
  searchHits.foldl upsertHit []

/-- Specification-side helper: first occurrences of a list of strings, in
order (one entry per distinct string, at its first position). -/
def keepFirsts : List String → List String
  | [] => []
  | c :: cs => c :: keepFirsts (cs.filter (fun x => x ≠ c))
termination_by l => l.length
decreasing_by
  exact Nat.lt_succ_of_le (List.length_filter_le _ _)

/-! ## Reranker (`user-query-reranker.ts`) -/

/-- One `(index, score)` entry of a reranker response
(`ReRankerResult` in `user-query-types.ts`). -/
structure ReRankerResult where
  index : ℕ
  score : ℚ
deriving DecidableEq, Repr

/-- Reranker configuration (`getReRankerConfig()`): the enabled flag and
the endpoint/key strings, whose JavaScript truthiness test fails exactly
on the empty string. -/
structure ReRankerConfig where
  useReRanker : Bool
  endpoint : String
  key : String
deriving Repr

/-- Outcome of the external rerank HTTP call, as observed by
`rerankWithAzure`: the fetch (or body read / JSON parse) throws, or the
response has a non-OK status, or it parses to a result list (a missing
`results` field behaves as the empty list). -/
inductive RerankCall where
  | throws
  | httpError
  | results (rs : List ReRankerResult)
deriving DecidableEq, Repr

/-- Stable descending insertion of a rerank result
(model of one step of `results.sort((a, b) => b.score - a.score)`). -/
def insertDesc (r : ReRankerResult) : List ReRankerResult → List ReRankerResult
  | [] => [r]
  | x :: xs => if x.score > r.score then x :: insertDesc r xs else r :: x :: xs

/-- Stable sort by descending score, the JavaScript
`results.sort((a, b) => b.score - a.score)` (ECMAScript sort is stable). -/
def sortByScoreDesc (rs : List ReRankerResult) : List ReRankerResult :=
  rs.foldr insertDesc []

/-- The `.map` of step 6 of `rerankWithAzure`: map each rerank result
back to the original hit by index, replacing the similarity score with
the rerank score; an out-of-range index throws
(`Invalid ReRanker result index`). -/
def mapBackResults (searchHits : List SearchHit) :
    List ReRankerResult → Except String (List SearchHit)
  | [] => Except.ok []
  | r :: rest =>
      match searchHits[r.index]? with
      | none => Except.error "Invalid ReRanker result index"
      | some originalHit =>
          (mapBackResults searchHits rest).map
            (fun tl => { originalHit with score := r.score } :: tl)

/-- The body of the `try` block of `rerankWithAzure` (steps 3-6): fails
on a thrown fetch, a non-OK status, or an invalid result index; a
well-formed but empty result list falls back to the original order from
inside the `try`. -/
def rerankCore (call : RerankCall) (searchHits : List SearchHit)
    (topK : ℕ) : Except String (List SearchHit) :=
  match call with
  | RerankCall.throws => Except.error "fetch failed"
  | RerankCall.httpError => Except.error "ReRanker API failed"
  | RerankCall.results rs =>
      if rs.length = 0 then Except.ok (searchHits.take topK)
      else mapBackResults searchHits ((sortByScoreDesc rs).take topK)

/-- `rerankWithAzure`: early exit when disabled or unconfigured, empty
input gives empty output, and the whole `try` body is wrapped in a catch
that falls back to the top-K of the original order. -/
def rerankWithAzure (cfg : ReRankerConfig) (call : RerankCall)
    (searchHits : List SearchHit) (topK : ℕ) : List SearchHit :=
  if ¬cfg.useReRanker ∨ cfg.endpoint = "" ∨ cfg.key = "" then
    searchHits.take topK
  else if searchHits.length = 0 then []
  else
    match rerankCore call searchHits topK with
    | Except.ok reRankedHits => reRankedHits
    | Except.error _ => searchHits.take topK

/-! ## Retriever (`retrieveDocuments` in `agents/retriever.ts`) -/

/-- `RetrievalOptions` (k, minScore, useReRanker), all optional. -/
structure RetrievalOptions where
  k : Option ℕ := none
  minScore : Option ℚ := none
  useReRanker : Option Bool := none
deriving Repr

/-- Step 4 of `retrieveDocuments`: `if (options.minScore)` is a
JavaScript truthiness test, so a threshold of 0 skips the filter. -/
def minScoreFilter (minScore : Option ℚ) (finalResults : List SearchHit) :
    List SearchHit :=
  match minScore with
  | some m =>
      if m ≠ 0 then finalResults.filter (fun doc => doc.score ≥ m)
      else finalResults
  | none => finalResults

/-- The post-search part of `retrieveDocuments` (steps 2.5-4), as a
function of the raw hit list produced by the vector search and the
outcome of the external rerank call: deduplicate by content, either
rerank (when enabled and non-empty) or truncate to `k`, then apply the
`minScore` filter. -/
def retrieveDocuments (cfg : ReRankerConfig) (searchHits : List SearchHit)
    (call : RerankCall) (options : RetrievalOptions) : List SearchHit :=
  let k := options.k.getD 6
  let useReRanker := options.useReRanker.getD cfg.useReRanker
  let deduplicatedHits := deduplicateHits searchHits
  let finalResults :=
    if useReRanker ∧ deduplicatedHits.length > 0 then
      rerankWithAzure cfg call deduplicatedHits k
    else
      deduplicatedHits.take k
  minScoreFilter options.minScore finalResults

/-- Whether a rerank outcome carries pairwise-distinct result indices
(trivially so when no result list came back). -/
def rerankIndicesNodup : RerankCall → Bool
  | RerankCall.results rs => decide (rs.map ReRankerResult.index).Nodup
  | _ => true

/-- Whether `rerankWithAzure` takes one of its fallback paths for the
given outcome: a thrown call, a non-OK status, an empty result list, or
a result set whose mapping step hits an invalid index. -/
def rerankFallsBack (searchHits : List SearchHit) (topK : ℕ) :
    RerankCall → Bool
  | RerankCall.throws => true
  | RerankCall.httpError => true
  | RerankCall.results rs =>
      rs.isEmpty ||
        (match mapBackResults searchHits ((sortByScoreDesc rs).take topK) with
         | Except.ok _ => false
         | Except.error _ => true)

/-! ## Classifier (production-grade `classifyQuestion`) -/

/-- A classification validated against the Zod schema (category and
complexity in the closed enumerations, confidence in [0,1], reasoning at
most 300 characters). -/
structure ValidatedClassification where
  category : QuestionCategory
  complexity : QuestionComplexity
  confidence : ℚ
  reasoning : String
deriving DecidableEq, Repr

/-- The classification the pipeline consumes (`ClassificationResult`;
the wall-clock `timeMs` field is outside the embedding). -/
structure ClassificationResult where
  category : QuestionCategory
  complexity : QuestionComplexity
  confidence : ℚ
  reasoning : String
  requestId : String
deriving DecidableEq, Repr

/-- Combined outcome of the two `classifyWithRetry` rounds (normal
prompt, then strict prompt): either every attempt failed, timed out, or
produced an unparsable or schema-invalid payload, or some attempt
produced a validated classification. -/
inductive ClassifierOutcome where
  | failure
  | validated (v : ValidatedClassification)
deriving DecidableEq, Repr

/-- `createFallbackResult`: the default general/moderate classification
with confidence 0.5. -/
def createFallbackResult (requestId : String)
    (reasoning : String) : ClassificationResult :=
  { category := QuestionCategory.general
    complexity := QuestionComplexity.moderate
    confidence := 1 / 2
    reasoning := reasoning
    requestId := requestId }

/-- `callContentSafety` placeholder: reject empty or whitespace-only
questions (the source tests `question.trim().length === 0`, which holds
exactly when every character is whitespace). -/
def callContentSafety (question : String) : Bool :=
  ¬(question.data.all Char.isWhitespace = true)

/-- Input guardrail 1 of `classifyQuestion`: truncate questions longer
than `MAX_QUESTION_LENGTH` (2000). -/
def truncateQuestion (question : String) : String :=
  if question.length > 2000 then question.take 2000 else question

/-- The production-grade `classifyQuestion`: truncate over-long
questions, run the content-safety guardrail, call the chat model with
retries (modelled by `outcome`), downgrade low-confidence results to
general/moderate, and fall back to the default classification on any
failure.  The surrounding `try`/`catch` makes the function total. -/
def classifyQuestion (question requestId : String)
    (outcome : ClassifierOutcome) : ClassificationResult :=
  let question := truncateQuestion question
  if ¬callContentSafety question then
    createFallbackResult requestId "Content safety violation"
  else
    match outcome with
    | ClassifierOutcome.failure =>
        createFallbackResult requestId "Fallback classification"
    | ClassifierOutcome.validated v =>
        if v.confidence < 6 / 10 then
          { category := QuestionCategory.general
            complexity := QuestionComplexity.moderate
            confidence := v.confidence
            reasoning := "Low confidence fallback"
            requestId := requestId }
        else
          { category := v.category
            complexity := v.complexity
            confidence := v.confidence
            reasoning := v.reasoning
            requestId := requestId }

/-! ## Answerer (`generateAnswer` and the prompt builders) -/

/-- A citation (`Citation` in `user-query-types.ts`). -/
structure Citation where
  id : String
  score : ℚ
  filename : String
  category : String
  snippet : Option String := none
deriving DecidableEq, Repr

/-- `AnswerInput`: question plus either documents or a summarised
context (both optional fields in the source). -/
structure AnswerInput where
  question : String
  documents : Option (List SearchHit) := none
  summarizedContext : Option String := none
  includeText : Option Bool := none
  category : Option QuestionCategory := none
deriving Repr

/-- Result of prompt construction: the two chat messages and the
citation list assembled alongside them. -/
structure GroundedPrompt where
  systemMessage : String
  userMessage : String
  citations : List Citation
deriving Repr

/-- The per-document part of `buildGroundedPromptFromDocs`: a citation
per document in order, with a 200-character snippet when text is
included. -/
def citationsFromDocs (documents : List SearchHit)
    (includeText : Bool) : List Citation :=
  documents.map (fun doc =>
    { id := doc.id
      score := doc.score
      filename := doc.filename
      category := doc.category
      snippet :=
        if includeText then some (doc.content.take 200 ++ "...") else none })

/-- The context section built by `buildGroundedPromptFromDocs`. -/
def contextSectionFromDocs (documents : List SearchHit)
    (includeText : Bool) : String :=
  documents.foldl
    (fun acc doc =>
      acc ++ doc.filename ++ " (" ++ doc.id ++ ")\n" ++
        (if includeText then doc.content ++ "\n\n"
         else "Category: " ++ doc.category ++ "\nCreated: " ++
           doc.createdUtc ++ "\n\n"))
    "CONTEXT DOCUMENTS:\n\n"

/-- `buildGroundedPromptFromDocs` (the system message is the
category-specific instruction text, held abstract as `systemMessage`
since it is a fixed string template). -/
def buildGroundedPromptFromDocs (systemMessage question : String)
    (documents : List SearchHit) (includeText : Bool) : GroundedPrompt :=
  { systemMessage := systemMessage
    userMessage :=
      contextSectionFromDocs documents includeText ++
        "QUESTION: " ++ question ++
        "\n\nPlease provide a comprehensive answer based on the context documents above."
    citations := citationsFromDocs documents includeText }

/-- `buildGroundedPromptFromSummary`: a single synthetic citation and a
prompt quoting the summary. -/
def buildGroundedPromptFromSummary (systemMessage question summary : String) :
    GroundedPrompt :=
  { systemMessage := systemMessage
    userMessage :=
      "SUMMARIZED CONTEXT:\n\n" ++ summary ++ "\n\nQUESTION: " ++ question ++
        "\n\nPlease provide a comprehensive answer based on the summarized context above."
    citations :=
      [{ id := "summarized"
         score := 1
         filename := "Multiple documents (summarized)"
         category := "Summary" }] }

/-- The answer the answerer returns (`AnswerResult`; `timeMs` is outside
the embedding). -/
structure AnswerResult where
  answer : String
  citations : List Citation
  requestId : String
deriving DecidableEq, Repr

/-- `generateAnswer`: choose the prompt builder by the JavaScript
truthiness of `input.documents` (any present array, even empty, selects
the document branch), call the chat model (`chat` is the returned
content, `none` when absent), and throw when the content is missing or
empty (both falsy in the source check `if (!answer)`).  The
non-null-asserted `summarizedContext!` interpolates as the string
`undefined` when absent. -/
def generateAnswer (systemMessage : String) (input : AnswerInput)
    (requestId : String) (chat : Option String) :
    Except String AnswerResult :=
  let shouldIncludeText := input.includeText ≠ some false
  let prompt :=
    match input.documents with
    | some documents =>
        buildGroundedPromptFromDocs systemMessage input.question documents
          shouldIncludeText
    | none =>
        buildGroundedPromptFromSummary systemMessage input.question
          (input.summarizedContext.getD "undefined")
  match chat with
  | none => Except.error "Answer generation failed: No answer generated"
  | some answer =>
      if answer = "" then
        Except.error "Answer generation failed: No answer generated"
      else
        Except.ok
          { answer := answer.trim
            citations := prompt.citations
            requestId := requestId }

/-! ## Orchestrator (`SimpleRAGOrchestrator.execute`) -/

/-- The effective `k` passed to retrieval by the orchestrator
(`options.maxResults || 6`, a JavaScript truthiness test, so 0 falls
back to 6). -/
def orchestratorK (maxResults : Option ℕ) : ℕ :=
  match maxResults with
  | some m => if m ≠ 0 then m else 6
  | none => 6

/-- The summarised context variable of `execute` after step 4: set only
when `needsSummarization` holds and documents are non-empty, in which
case it is the text produced by `summarizeDocuments` (`summaryText`). -/
def orchestratorSummarizedContext (documents : List SearchHit)
    (complexity : QuestionComplexity) (summaryText : String) : Option String :=
  if needsSummarization documents complexity ∧ documents.length > 0 then
    some summaryText
  else none

/-- The `AnswerInput` that `execute` passes to `generateAnswer` (step
5): the summarised context when it is truthy (present and non-empty),
otherwise the retrieved document list — even when that list is empty. -/
def orchestratorAnswerInput (question : String) (documents : List SearchHit)
    (complexity : QuestionComplexity) (summaryText : String)
    (includeText : Option Bool) (category : Option QuestionCategory) :
    AnswerInput :=
  match orchestratorSummarizedContext documents complexity summaryText with
  | some s =>
      if s ≠ "" then
        { question := question
          summarizedContext := some s
          includeText := includeText
          category := category }
      else
        { question := question
          documents := some documents
          includeText := includeText
          category := category }
  | none =>
      { question := question
        documents := some documents
        includeText := includeText
        category := category }

/-- The orchestrator always reaches step 5 and calls the answerer: the
argument of that call (`some` = the call happens). -/
def orchestratorAnswerCall (question : String) (documents : List SearchHit)
    (complexity : QuestionComplexity) (summaryText : String)
    (includeText : Option Bool) (category : Option QuestionCategory) :
    Option AnswerInput :=
  some (orchestratorAnswerInput question documents complexity summaryText
    includeText category)

/-- The final result assembled by `execute` (`OrchestratorResult`;
timing metrics are outside the embedding). -/
structure OrchestratorResult where
  answer : String
  citations : List Citation
  requestId : String
  category : QuestionCategory
  complexity : QuestionComplexity
  documentsRetrieved : ℕ
  usedSummarization : Bool
deriving DecidableEq, Repr

/-- `SimpleRAGOrchestrator.execute` from classification through answer:
classify, retrieve, decide summarisation, optionally summarise
(`summaryOutcome` is the summariser chat outcome when invoked), then
always generate an answer; any stage error is wrapped and rethrown. -/
def executeSimple (cfg : ReRankerConfig) (systemMessage question requestId : String)
    (classifierOutcome : ClassifierOutcome) (searchHits : List SearchHit)
    (rerankCall : RerankCall) (maxResults : Option ℕ)
    (includeText : Option Bool) (summaryOutcome : Except String String)
    (chat : Option String) : Except String OrchestratorResult :=
  let classification := classifyQuestion question requestId classifierOutcome
  let documents := retrieveDocuments cfg searchHits rerankCall
    { k := some (orchestratorK maxResults) }
  if needsSummarization documents classification.complexity ∧
      documents.length > 0 then
    match summaryOutcome with
    | Except.error e => Except.error ("Orchestration failed: " ++ e)
    | Except.ok summaryText =>
        answerStep cfg systemMessage question requestId classification
          documents summaryText includeText chat
  else
    answerStep cfg systemMessage question requestId classification
      documents "" includeText chat
where
  /-- Step 5 of `execute`: build the answer input, call the answerer and
  assemble the final result (the `summaryText` argument is only consulted
  when summarisation ran). -/
  answerStep (_cfg : ReRankerConfig) (systemMessage question requestId : String)
      (classification : ClassificationResult) (documents : List SearchHit)
      (summaryText : String) (includeText : Option Bool)
      (chat : Option String) : Except String OrchestratorResult :=
    let summarizedContext :=
      orchestratorSummarizedContext documents classification.complexity
        summaryText
    let answerInput :=
      orchestratorAnswerInput question documents classification.complexity
        summaryText includeText (some classification.category)
    match generateAnswer systemMessage answerInput requestId chat with
    | Except.error e => Except.error ("Orchestration failed: " ++ e)
    | Except.ok answer =>
        Except.ok
          { answer := answer.answer
            citations := answer.citations
            requestId := requestId
            category := classification.category
            complexity := classification.complexity
            documentsRetrieved := documents.length
            usedSummarization :=
              match summarizedContext with
              | some s => decide (s ≠ "")
              | none => false }

/-! ## The `/query` route (`user-query-server 2.ts`) -/

/-- HTTP responses the `/query` handler can produce after a successful
retrieval. -/
inductive QueryResponse where
  | notFound (requestId : String)
  | answered (answer : String) (citations : List Citation) (requestId : String)
  | serverError (requestId : String)
deriving DecidableEq, Repr

/-- The `/query` handler after retrieval: an empty document list yields
a 404 "No relevant documents found" before `processRAGQuery` runs;
otherwise the answer call (`rag`, its outcome) decides the response. -/
def queryRoute (documents : List SearchHit) (requestId : String)
    (rag : Except String (String × List Citation)) : QueryResponse :=
  if documents.length = 0 then QueryResponse.notFound requestId
  else
    match rag with
    | Except.ok (answer, citations) =>
        QueryResponse.answered answer citations requestId
    | Except.error _ => QueryResponse.serverError requestId

/-- The documents the `/query` handler passes to `processRAGQuery`
(`none` = the answer stage is never invoked). -/
def queryRouteAnswerCall (documents : List SearchHit) :
    Option (List SearchHit) :=
  if documents.length = 0 then none else some documents

/-! ## Concrete inputs used to evaluate the definitions -/

/-- A reranker configuration with reranking enabled and configured. -/
def cfgEnabled : ReRankerConfig :=
  { useReRanker := true
    endpoint := "https://r.example.net"
    key := "secret" }

/-- A reranker configuration with reranking disabled. -/
def cfgDisabled : ReRankerConfig :=
  { useReRanker := false
    endpoint := ""
    key := "" }

/-- A hit with content `x` and score 1. -/
def hitX1 : SearchHit :=
  { id := "a"
    content := "x"
    filename := "a.md"
    category := "general"
    createdUtc := "2024-01-01"
    score := 1 }

/-- A second hit with the same content `x` but score 3. -/
def hitX2 : SearchHit :=
  { id := "b"
    content := "x"
    filename := "b.md"
    category := "general"
    createdUtc := "2024-01-02"
    score := 3 }

/-- A hit with content `y` and score 2. -/
def hitY : SearchHit :=
  { id := "c"
    content := "y"
    filename := "c.md"
    category := "general"
    createdUtc := "2024-01-03"
    score := 2 }

/-- A generic document used to build document lists of a given size. -/
def exampleDoc : SearchHit :=
  { id := "d"
    content := "body"
    filename := "d.md"
    category := "general"
    createdUtc := "2024-01-04"
    score := 1 }

/-- `n` copies of the generic document. -/
def exampleDocs (n : ℕ) : List SearchHit :=
  List.replicate n exampleDoc

/-! # Theorems -/

/-! ## Summariser: the decision function -/

theorem foldl_add_length (l : List SearchHit) (s : ℕ) :
    l.foldl (fun sum doc => sum + doc.content.length) s = s + totalChars l := by
  induction l generalizing s with
  | nil => simp [totalChars]
  | cons h t ih =>
      show t.foldl _ (s + h.content.length) = s + totalChars (h :: t)
      rw [ih]
      show _ = s + (h :: t).foldl (fun sum doc => sum + doc.content.length) 0
      show _ = s + t.foldl _ (0 + h.content.length)
      rw [ih (0 + h.content.length)]
      omega

theorem totalChars_cons (h : SearchHit) (t : List SearchHit) :
    totalChars (h :: t) = h.content.length + totalChars t := by
  show (h :: t).foldl (fun sum doc => sum + doc.content.length) 0 = _
  show t.foldl _ (0 + h.content.length) = _
  rw [foldl_add_length]
  omega

theorem totalChars_append (l₁ l₂ : List SearchHit) :
    totalChars (l₁ ++ l₂) = totalChars l₁ + totalChars l₂ := by
  induction l₁ with
  | nil => simp [totalChars]
  | cons h t ih =>
      rw [List.cons_append, totalChars_cons, totalChars_cons, ih]
      omega

theorem ceil_div_four (n : ℕ) : ⌈(n : ℚ) / 4⌉₊ = (n + 3) / 4 := by
  apply le_antisymm
  · apply Nat.ceil_le.mpr
    rw [div_le_iff₀ (by norm_num : (0 : ℚ) < 4)]
    have hn : n ≤ (n + 3) / 4 * 4 := by omega
    exact_mod_cast hn
  · have h := Nat.le_ceil ((n : ℚ) / 4)
    have h2 : (n : ℚ) ≤ (⌈(n : ℚ) / 4⌉₊ : ℚ) * 4 := by
      rw [← div_le_iff₀ (by norm_num : (0 : ℚ) < 4)]
      exact h
    have h3 : n ≤ ⌈(n : ℚ) / 4⌉₊ * 4 := by exact_mod_cast h2
    omega

theorem needsSummarization_eq (ds : List SearchHit) (c : QuestionComplexity) :
    needsSummarization ds c =
      (decide (10 < ds.length) ||
        (decide (c = QuestionComplexity.complex) && decide (5 < ds.length)) ||
        decide (8000 < estimateTokenCount ds)) := by
  unfold needsSummarization
  by_cases h1 : ds.length > 10 <;>
    by_cases h2 : c = QuestionComplexity.complex <;>
      by_cases h3 : ds.length > 5 <;>
        by_cases h4 : estimateTokenCount ds > 8000 <;>
          simp [h1, h2, h3, h4]

theorem needsSummarization_iff (ds : List SearchHit) (c : QuestionComplexity) :
    needsSummarization ds c = true ↔
      (10 < ds.length ∨ (c = QuestionComplexity.complex ∧ 5 < ds.length) ∨
        8000 < estimateTokenCount ds) := by
  rw [needsSummarization_eq]
  simp [or_assoc]

/-- C2: `needsSummarization(documents, complexity)` returns true exactly
when the document count exceeds 10, or the complexity is complex and the
document count exceeds 5, or the estimated token count (ceiling of total
content character count divided by 4) exceeds 8000; otherwise false. -/
theorem needsSummarization_spec (ds : List SearchHit) (c : QuestionComplexity) :
    needsSummarization ds c =
      (decide (10 < ds.length) ||
        (decide (c = QuestionComplexity.complex) && decide (5 < ds.length)) ||
        decide ((8000 : ℕ) < ⌈(totalChars ds : ℚ) / 4⌉₊)) := by
  rw [needsSummarization_eq, ceil_div_four]
  rfl

/-- C9: `needsSummarization` is monotonic under extension of the
document list for fixed complexity, and every list with more than 10
documents yields true. -/
theorem needsSummarization_monotone (ds es : List SearchHit)
    (c : QuestionComplexity) :
    (needsSummarization ds c = true → needsSummarization (ds ++ es) c = true) ∧
    (10 < ds.length → needsSummarization ds c = true) := by
  constructor
  · intro h
    rw [needsSummarization_iff] at h ⊢
    have hlen : ds.length ≤ (ds ++ es).length := by simp
    have htc : estimateTokenCount ds ≤ estimateTokenCount (ds ++ es) := by
      unfold estimateTokenCount
      have := totalChars_append ds es
      omega
    rcases h with h | ⟨h1, h2⟩ | h
    · left
      omega
    · exact Or.inr (Or.inl ⟨h1, by omega⟩)
    · right
      right
      omega
  · intro h
    rw [needsSummarization_iff]
    exact Or.inl h

/-- Witness for C9 at concrete inputs: a complex six-document list stays
in need of summarisation after appending two documents, and an
eleven-document list needs summarisation. -/
theorem needsSummarization_monotone_witness :
    needsSummarization (exampleDocs 6 ++ exampleDocs 2)
        QuestionComplexity.complex = true ∧
    needsSummarization (exampleDocs 11) QuestionComplexity.simple = true :=
  ⟨(needsSummarization_monotone (exampleDocs 6) (exampleDocs 2)
      QuestionComplexity.complex).1 (by decide),
   (needsSummarization_monotone (exampleDocs 11) []
      QuestionComplexity.simple).2 (by decide)⟩

/-! ## Retriever: deduplication lemmas -/

theorem upsertHit_mem (acc : List SearchHit) (hit e : SearchHit)
    (h : e ∈ upsertHit acc hit) : e ∈ acc ∨ e = hit := by
  induction acc with
  | nil =>
      simp [upsertHit] at h
      exact Or.inr h
  | cons best rest ih =>
      rw [upsertHit] at h
      by_cases hc : best.content = hit.content
      · rw [if_pos hc] at h
        rcases List.mem_cons.mp h with h1 | h1
        · by_cases hs : hit.score > best.score
          · rw [if_pos hs] at h1
            exact Or.inr h1
          · rw [if_neg hs] at h1
            exact Or.inl (h1 ▸ List.mem_cons_self _ _)
        · exact Or.inl (List.mem_cons_of_mem _ h1)
      · rw [if_neg hc] at h
        rcases List.mem_cons.mp h with h1 | h1
        · exact Or.inl (h1 ▸ List.mem_cons_self _ _)
        · rcases ih h1 with h2 | h2
          · exact Or.inl (List.mem_cons_of_mem _ h2)
          · exact Or.inr h2

theorem upsertHit_exists_content (acc : List SearchHit) (hit : SearchHit) :
    ∃ u ∈ upsertHit acc hit, u.content = hit.content ∧ hit.score ≤ u.score := by
  induction acc with
  | nil =>
      exact ⟨hit, by simp [upsertHit]⟩
  | cons best rest ih =>
      rw [upsertHit]
      by_cases hc : best.content = hit.content
      · rw [if_pos hc]
        by_cases hs : hit.score > best.score
        · rw [if_pos hs]
          exact ⟨hit, List.mem_cons_self _ _, rfl, le_refl _⟩
        · rw [if_neg hs]
          exact ⟨best, List.mem_cons_self _ _, hc, le_of_not_lt hs⟩
      · rw [if_neg hc]
        obtain ⟨u, hu, huc, hus⟩ := ih
        exact ⟨u, List.mem_cons_of_mem _ hu, huc, hus⟩

theorem upsertHit_preserves (acc : List SearchHit) (hit a : SearchHit)
    (ha : a ∈ acc) :
    ∃ u ∈ upsertHit acc hit, u.content = a.content ∧ a.score ≤ u.score := by
  induction acc with
  | nil => cases ha
  | cons best rest ih =>
      rw [upsertHit]
      rcases List.mem_cons.mp ha with h1 | h1
      · subst h1
        by_cases hc : a.content = hit.content
        · rw [if_pos hc]
          by_cases hs : hit.score > a.score
          · rw [if_pos hs]
            exact ⟨hit, List.mem_cons_self _ _, hc.symm, le_of_lt hs⟩
          · rw [if_neg hs]
            exact ⟨a, List.mem_cons_self _ _, rfl, le_refl _⟩
        · rw [if_neg hc]
          exact ⟨a, List.mem_cons_self _ _, rfl, le_refl _⟩
      · by_cases hc : best.content = hit.content
        · rw [if_pos hc]
          exact ⟨a, List.mem_cons_of_mem _ h1, rfl, le_refl _⟩
        · rw [if_neg hc]
          obtain ⟨u, hu, huc, hus⟩ := ih h1
          exact ⟨u, List.mem_cons_of_mem _ hu, huc, hus⟩

theorem upsertHit_map_content_of_mem (acc : List SearchHit) (hit : SearchHit)
    (h : hit.content ∈ acc.map SearchHit.content) :
    (upsertHit acc hit).map SearchHit.content = acc.map SearchHit.content := by
  induction acc with
  | nil => simp at h
  | cons best rest ih =>
      rw [upsertHit]
      by_cases hc : best.content = hit.content
      · rw [if_pos hc]
        by_cases hs : hit.score > best.score
        · rw [if_pos hs]
          simp [hc]
        · rw [if_neg hs]
      · rw [if_neg hc]
        simp only [List.map_cons] at h ⊢
        rcases List.mem_cons.mp h with h1 | h1
        · exact absurd h1.symm hc
        · rw [ih h1]

theorem upsertHit_of_not_mem (acc : List SearchHit) (hit : SearchHit)
    (h : hit.content ∉ acc.map SearchHit.content) :
    upsertHit acc hit = acc ++ [hit] := by
  induction acc with
  | nil => rfl
  | cons best rest ih =>
      rw [upsertHit]
      simp only [List.map_cons, List.mem_cons] at h
      push_neg at h
      rw [if_neg (fun hc => h.1 hc.symm)]
      rw [ih h.2]
      rfl

theorem upsertHit_nodup (acc : List SearchHit) (hit : SearchHit)
    (h : (acc.map SearchHit.content).Nodup) :
    ((upsertHit acc hit).map SearchHit.content).Nodup := by
  by_cases hm : hit.content ∈ acc.map SearchHit.content
  · rw [upsertHit_map_content_of_mem acc hit hm]
    exact h
  · rw [upsertHit_of_not_mem acc hit hm]
    simp [List.nodup_append, h, hm]

theorem eq_of_mem_nodup_contents {acc : List SearchHit}
    (hn : (acc.map SearchHit.content).Nodup) {a e : SearchHit}
    (ha : a ∈ acc) (he : e ∈ acc) (hc : a.content = e.content) : a = e := by
  induction acc with
  | nil => cases ha
  | cons best rest ih =>
      simp only [List.map_cons, List.nodup_cons] at hn
      rcases List.mem_cons.mp ha with h1 | h1 <;>
        rcases List.mem_cons.mp he with h2 | h2
      · rw [h1, h2]
      · subst h1
        exact absurd (hc ▸ List.mem_map_of_mem SearchHit.content h2) hn.1
      · subst h2
        exact absurd (hc ▸ List.mem_map_of_mem SearchHit.content h1) hn.1
      · exact ih hn.2 h1 h2

theorem foldl_upsert_spec (hits : List SearchHit) :
    ∀ acc, (acc.map SearchHit.content).Nodup →
      ∀ e ∈ hits.foldl upsertHit acc,
        (e ∈ acc ∨ e ∈ hits) ∧
        (∀ h ∈ hits, h.content = e.content → h.score ≤ e.score) ∧
        (∀ a ∈ acc, a.content = e.content → a.score ≤ e.score) := by
  induction hits with
  | nil =>
      intro acc hn e he
      simp only [List.foldl_nil] at he
      refine ⟨Or.inl he, by simp, fun a ha hc => ?_⟩
      rw [eq_of_mem_nodup_contents hn ha he hc]
  | cons h t ih =>
      intro acc hn e he
      rw [List.foldl_cons] at he
      obtain ⟨hmem, hsct, hscacc⟩ := ih (upsertHit acc h) (upsertHit_nodup acc h hn) e he
      refine ⟨?_, ?_, ?_⟩
      · rcases hmem with h1 | h1
        · rcases upsertHit_mem acc h e h1 with h2 | h2
          · exact Or.inl h2
          · exact Or.inr (h2 ▸ List.mem_cons_self _ _)
        · exact Or.inr (List.mem_cons_of_mem _ h1)
      · intro h2 hh2 hc
        rcases List.mem_cons.mp hh2 with h3 | h3
        · subst h3
          obtain ⟨u, hu, huc, hus⟩ := upsertHit_exists_content acc h2
          exact le_trans hus (hscacc u hu (huc.trans hc))
        · exact hsct h2 h3 hc
      · intro a ha hc
        obtain ⟨u, hu, huc, hus⟩ := upsertHit_preserves acc h a ha
        exact le_trans hus (hscacc u hu (huc.trans hc))

theorem deduplicateHits_nodup (hits : List SearchHit) :
    ((deduplicateHits hits).map SearchHit.content).Nodup := by
  have aux : ∀ (l : List SearchHit) (acc : List SearchHit),
      (acc.map SearchHit.content).Nodup →
      ((l.foldl upsertHit acc).map SearchHit.content).Nodup := by
    intro l
    induction l with
    | nil =>
        intro acc hn
        simpa using hn
    | cons h t ih =>
        intro acc hn
        rw [List.foldl_cons]
        exact ih (upsertHit acc h) (upsertHit_nodup acc h hn)
  exact aux hits [] (by simp)

theorem deduplicateHits_best (hits : List SearchHit) :
    ∀ e ∈ deduplicateHits hits,
      e ∈ hits ∧ ∀ h ∈ hits, h.content = e.content → h.score ≤ e.score := by
  intro e he
  obtain ⟨hmem, hsc, _⟩ := foldl_upsert_spec hits [] (by simp) e he
  rcases hmem with h1 | h1
  · cases h1
  · exact ⟨h1, hsc⟩

theorem keepFirsts_cons (c : String) (cs : List String) :
    keepFirsts (c :: cs) = c :: keepFirsts (cs.filter (fun x => x ≠ c)) := by
  rw [keepFirsts]

theorem foldl_upsert_contents (hits : List SearchHit) :
    ∀ acc : List SearchHit,
      (hits.foldl upsertHit acc).map SearchHit.content =
        acc.map SearchHit.content ++
          keepFirsts ((hits.map SearchHit.content).filter
            (fun c => c ∉ acc.map SearchHit.content)) := by
  induction hits with
  | nil =>
      intro acc
      simp [keepFirsts]
  | cons h t ih =>
      intro acc
      rw [List.foldl_cons]
      rw [ih (upsertHit acc h)]
      by_cases hm : h.content ∈ acc.map SearchHit.content
      · rw [upsertHit_map_content_of_mem acc h hm]
        congr 1
        congr 1
        simp only [List.map_cons, List.filter_cons]
        rw [if_neg (by simpa using hm)]
      · rw [upsertHit_of_not_mem acc h hm]
        simp only [List.map_append, List.map_cons, List.map_nil]
        rw [List.append_assoc]
        congr 1
        simp only [List.singleton_append]
        simp only [List.map_cons, List.filter_cons]
        rw [if_pos (by simpa using hm)]
        rw [keepFirsts_cons]
        congr 1
        have hpt : ∀ x : String,
            (x ∉ acc.map SearchHit.content ++ [h.content]) ↔
              (x ≠ h.content ∧ x ∉ acc.map SearchHit.content) := by
          intro x
          simp only [List.mem_append, List.mem_singleton, not_or]
          tauto
        rw [List.filter_filter]
        congr 1
        apply List.filter_congr
        intro x _
        rw [show decide (x ∉ acc.map SearchHit.content ++ [h.content]) =
              decide (x ≠ h.content ∧ x ∉ acc.map SearchHit.content) from
            decide_eq_decide.mpr (hpt x)]
        exact Bool.decide_and _ _

theorem deduplicateHits_contents (hits : List SearchHit) :
    (deduplicateHits hits).map SearchHit.content =
      keepFirsts (hits.map SearchHit.content) := by
  rw [deduplicateHits, foldl_upsert_contents hits []]
  simp

theorem keepFirsts_mem (cs : List String) (x : String) :
    x ∈ keepFirsts cs ↔ x ∈ cs := by
  induction cs using keepFirsts.induct with
  | case1 => simp [keepFirsts]
  | case2 c cs ih =>
      rw [keepFirsts_cons]
      by_cases hx : x = c
      · simp [hx]
      · simp only [List.mem_cons, hx, false_or]
        rw [ih]
        simp [List.mem_filter, hx]

/-- C10: deduplication keeps exactly one entry per distinct content
string, in first-occurrence order, and each kept entry is a raw hit
whose score is maximal among all raw hits sharing its content (a later
higher-scoring duplicate supplies the fields but not the position). -/
theorem deduplicateHits_characterization (hits : List SearchHit) :
    ((deduplicateHits hits).map SearchHit.content).Nodup ∧
    (deduplicateHits hits).map SearchHit.content =
      keepFirsts (hits.map SearchHit.content) ∧
    (∀ c : String,
      c ∈ (deduplicateHits hits).map SearchHit.content ↔
        c ∈ hits.map SearchHit.content) ∧
    ∀ e ∈ deduplicateHits hits,
      e ∈ hits ∧ ∀ h ∈ hits, h.content = e.content → h.score ≤ e.score :=
  ⟨deduplicateHits_nodup hits, deduplicateHits_contents hits,
   fun c => by rw [deduplicateHits_contents]; exact keepFirsts_mem _ c,
   deduplicateHits_best hits⟩

/-- Witness for C10 on a raw list with a duplicated content: the kept
entry for content `x` is the higher-scoring second hit, and the content
sequence is the first-occurrence sequence. -/
theorem deduplicateHits_characterization_witness :
    (hitX2 ∈ [hitX1, hitX2, hitY] ∧ hitX1.score ≤ hitX2.score) ∧
    (deduplicateHits [hitX1, hitX2, hitY]).map SearchHit.content =
      keepFirsts ([hitX1, hitX2, hitY].map SearchHit.content) :=
  have h := deduplicateHits_characterization [hitX1, hitX2, hitY]
  ⟨⟨(h.2.2.2 hitX2 (by decide)).1,
    (h.2.2.2 hitX2 (by decide)).2 hitX1 (by decide) (by decide)⟩,
   h.2.1⟩

theorem foldl_upsert_of_disjoint :
    ∀ (hits acc : List SearchHit),
      (∀ h ∈ hits, h.content ∉ acc.map SearchHit.content) →
      (hits.map SearchHit.content).Nodup →
      hits.foldl upsertHit acc = acc ++ hits := by
  intro hits
  induction hits with
  | nil =>
      intro acc _ _
      simp
  | cons h t ih =>
      intro acc hdisj hnd
      simp only [List.map_cons, List.nodup_cons] at hnd
      rw [List.foldl_cons,
        upsertHit_of_not_mem acc h (hdisj h (List.mem_cons_self _ _))]
      rw [ih (acc ++ [h]) ?_ hnd.2]
      · simp
      · intro h2 hh2
        simp only [List.map_append, List.map_cons, List.map_nil,
          List.mem_append, List.mem_singleton, not_or]
        refine ⟨hdisj h2 (List.mem_cons_of_mem _ hh2), fun hc => ?_⟩
        exact hnd.1 (hc ▸ List.mem_map_of_mem SearchHit.content hh2)

theorem deduplicateHits_eq_self (hits : List SearchHit)
    (hn : (hits.map SearchHit.content).Nodup) : deduplicateHits hits = hits := by
  have := foldl_upsert_of_disjoint hits [] (by simp) hn
  simpa [deduplicateHits] using this

/-- C4 (amended): with reranking disabled the result is the
content-deduplicated hit list truncated to the desired count (then
min-score filtered); in particular, whenever the raw contents are
pairwise distinct and no min-score option is supplied, it equals the
raw hit list truncated to the desired count. -/
theorem retrieveDocuments_noRerank (cfg : ReRankerConfig)
    (hits : List SearchHit) (call : RerankCall) (opts : RetrievalOptions)
    (h : opts.useReRanker.getD cfg.useReRanker = false) :
    retrieveDocuments cfg hits call opts =
      minScoreFilter opts.minScore
        ((deduplicateHits hits).take (opts.k.getD 6)) ∧
    ((hits.map SearchHit.content).Nodup → opts.minScore = none →
      retrieveDocuments cfg hits call opts = hits.take (opts.k.getD 6)) := by
  constructor
  · simp [retrieveDocuments, h]
  · intro hn hm
    simp [retrieveDocuments, h, hm, deduplicateHits_eq_self hits hn,
      minScoreFilter]

/-- C4 counterexample: with reranking disabled and a raw hit list whose
first two hits share a content string, the returned list is not the raw
hit list truncated to the desired count. -/
theorem retrieveDocuments_noRerank_cex :
    retrieveDocuments cfgDisabled [hitX1, hitX2] RerankCall.throws
      { k := some 2, minScore := none, useReRanker := none } ≠
      [hitX1, hitX2].take 2 := by decide

/-- Witness for C4 at a concrete duplicate-free input. -/
theorem retrieveDocuments_noRerank_witness :
    retrieveDocuments cfgDisabled [hitX1, hitY] RerankCall.throws
      { k := some 1, minScore := none, useReRanker := none } =
      [hitX1, hitY].take 1 :=
  (retrieveDocuments_noRerank cfgDisabled [hitX1, hitY] RerankCall.throws
    { k := some 1, minScore := none, useReRanker := none }
    (by decide)).2 (by decide) rfl

/-! ## Reranker lemmas -/

theorem insertDesc_perm (r : ReRankerResult) (l : List ReRankerResult) :
    (insertDesc r l).Perm (r :: l) := by
  induction l with
  | nil => rfl
  | cons x xs ih =>
      rw [insertDesc]
      by_cases hs : x.score > r.score
      · rw [if_pos hs]
        exact (ih.cons x).trans (List.Perm.swap r x xs)
      · rw [if_neg hs]

theorem sortByScoreDesc_perm (rs : List ReRankerResult) :
    (sortByScoreDesc rs).Perm rs := by
  induction rs with
  | nil => rfl
  | cons x xs ih =>
      show (insertDesc x (sortByScoreDesc xs)).Perm (x :: xs)
      exact (insertDesc_perm x (sortByScoreDesc xs)).trans (ih.cons x)

theorem mapBackResults_length (hits : List SearchHit) :
    ∀ (rs : List ReRankerResult) (out : List SearchHit),
      mapBackResults hits rs = Except.ok out → out.length = rs.length := by
  intro rs
  induction rs with
  | nil =>
      intro out h
      simp only [mapBackResults] at h
      cases h
      rfl
  | cons r rest ih =>
      intro out h
      simp only [mapBackResults] at h
      cases hg : hits[r.index]? with
      | none => rw [hg] at h; cases h
      | some hb =>
          rw [hg] at h
          cases hmb : mapBackResults hits rest with
          | error e => rw [hmb] at h; cases h
          | ok tl =>
              rw [hmb] at h
              simp only [Except.map] at h
              cases h
              simp [ih tl hmb]

theorem mapBackResults_mem (hits : List SearchHit) :
    ∀ (rs : List ReRankerResult) (out : List SearchHit),
      mapBackResults hits rs = Except.ok out →
      ∀ b ∈ out, ∃ r ∈ rs, ∃ hb : SearchHit,
        hits[r.index]? = some hb ∧ b = { hb with score := r.score } := by
  intro rs
  induction rs with
  | nil =>
      intro out h b hb
      simp only [mapBackResults] at h
      cases h
      cases hb
  | cons r rest ih =>
      intro out h b hmem
      simp only [mapBackResults] at h
      cases hg : hits[r.index]? with
      | none => rw [hg] at h; cases h
      | some h0 =>
          rw [hg] at h
          cases hmb : mapBackResults hits rest with
          | error e => rw [hmb] at h; cases h
          | ok tl =>
              rw [hmb] at h
              simp only [Except.map] at h
              cases h
              rcases List.mem_cons.mp hmem with h1 | h1
              · exact ⟨r, List.mem_cons_self _ _, h0, hg, h1⟩
              · obtain ⟨r2, hr2, hb2, hg2, he2⟩ := ih tl hmb b h1
                exact ⟨r2, List.mem_cons_of_mem _ hr2, hb2, hg2, he2⟩

theorem content_ne_of_getElem? {hits : List SearchHit}
    (hn : (hits.map SearchHit.content).Nodup) {i j : ℕ} {a b : SearchHit}
    (ha : hits[i]? = some a) (hb : hits[j]? = some b) (hij : i ≠ j) :
    a.content ≠ b.content := by
  obtain ⟨hi, hga⟩ := List.getElem?_eq_some.mp ha
  obtain ⟨hj, hgb⟩ := List.getElem?_eq_some.mp hb
  intro hc
  apply hij
  have hinj := List.nodup_iff_injective_getElem.mp hn
  have hi2 : i < (hits.map SearchHit.content).length := by
    simpa using hi
  have hj2 : j < (hits.map SearchHit.content).length := by
    simpa using hj
  have heq : (hits.map SearchHit.content)[i] = (hits.map SearchHit.content)[j] := by
    rw [List.getElem_map, List.getElem_map, hga, hgb]
    exact hc
  have := @hinj ⟨i, hi2⟩ ⟨j, hj2⟩ heq
  exact congrArg Fin.val this

theorem mapBackResults_pairwise {hits : List SearchHit}
    (hn : (hits.map SearchHit.content).Nodup) :
    ∀ (rs : List ReRankerResult) (out : List SearchHit),
      (rs.map ReRankerResult.index).Nodup →
      mapBackResults hits rs = Except.ok out →
      out.Pairwise (fun a b => a.content ≠ b.content) := by
  intro rs
  induction rs with
  | nil =>
      intro out _ h
      simp only [mapBackResults] at h
      cases h
      exact List.Pairwise.nil
  | cons r rest ih =>
      intro out hnd h
      simp only [List.map_cons, List.nodup_cons] at hnd
      simp only [mapBackResults] at h
      cases hg : hits[r.index]? with
      | none => rw [hg] at h; cases h
      | some h0 =>
          rw [hg] at h
          cases hmb : mapBackResults hits rest with
          | error e => rw [hmb] at h; cases h
          | ok tl =>
              rw [hmb] at h
              simp only [Except.map] at h
              cases h
              refine List.Pairwise.cons ?_ (ih tl hnd.2 hmb)
              intro b hbtl
              obtain ⟨r2, hr2, hb2, hg2, he2⟩ :=
                mapBackResults_mem hits rest tl hmb b hbtl
              have hidx : r.index ≠ r2.index := by
                intro hcc
                exact hnd.1 (hcc ▸ List.mem_map_of_mem ReRankerResult.index hr2)
              have := content_ne_of_getElem? hn hg hg2 hidx
              rw [he2]
              exact this

theorem retrieveDocuments_eq (cfg : ReRankerConfig) (hits : List SearchHit)
    (call : RerankCall) (opts : RetrievalOptions) :
    retrieveDocuments cfg hits call opts =
      minScoreFilter opts.minScore
        (if opts.useReRanker.getD cfg.useReRanker ∧
            (deduplicateHits hits).length > 0 then
          rerankWithAzure cfg call (deduplicateHits hits) (opts.k.getD 6)
        else (deduplicateHits hits).take (opts.k.getD 6)) := rfl

theorem minScoreFilter_sublist (m : Option ℚ) (l : List SearchHit) :
    (minScoreFilter m l).Sublist l := by
  cases m with
  | none => exact List.Sublist.refl l
  | some q =>
      simp only [minScoreFilter]
      split
      · exact List.filter_sublist l
      · exact List.Sublist.refl l

theorem rerankWithAzure_length (cfg : ReRankerConfig) (call : RerankCall)
    (hits : List SearchHit) (k : ℕ) :
    (rerankWithAzure cfg call hits k).length ≤ k := by
  have htake : (hits.take k).length ≤ k := by
    simp [List.length_take]
  unfold rerankWithAzure
  split
  · exact htake
  · split
    · simp
    · cases hc : rerankCore call hits k with
      | error e =>
          simp only [hc]
          exact htake
      | ok out =>
          simp only [hc]
          cases call with
          | throws => cases hc
          | httpError => cases hc
          | results rs =>
              simp only [rerankCore] at hc
              by_cases h0 : rs.length = 0
              · rw [if_pos h0] at hc
                cases hc
                exact htake
              · rw [if_neg h0] at hc
                rw [mapBackResults_length hits _ out hc]
                simp [List.length_take]

theorem rerankWithAzure_pairwise (cfg : ReRankerConfig) (call : RerankCall)
    (hits : List SearchHit) (k : ℕ)
    (hn : (hits.map SearchHit.content).Nodup)
    (hi : rerankIndicesNodup call = true) :
    (rerankWithAzure cfg call hits k).Pairwise
      (fun a b => a.content ≠ b.content) := by
  have hpw : hits.Pairwise (fun a b => a.content ≠ b.content) :=
    List.pairwise_map.mp hn
  have htake : (hits.take k).Pairwise (fun a b => a.content ≠ b.content) :=
    List.Pairwise.sublist (List.take_sublist k hits) hpw
  unfold rerankWithAzure
  split
  · exact htake
  · split
    · exact List.Pairwise.nil
    · cases hc : rerankCore call hits k with
      | error e =>
          simp only [hc]
          exact htake
      | ok out =>
          simp only [hc]
          cases call with
          | throws => cases hc
          | httpError => cases hc
          | results rs =>
              simp only [rerankCore] at hc
              by_cases h0 : rs.length = 0
              · rw [if_pos h0] at hc
                cases hc
                exact htake
              · rw [if_neg h0] at hc
                have hrs : (rs.map ReRankerResult.index).Nodup :=
                  of_decide_eq_true hi
                have hsorted : ((sortByScoreDesc rs).map ReRankerResult.index).Nodup :=
                  (((sortByScoreDesc_perm rs).map ReRankerResult.index).nodup_iff).mpr hrs
                have htk : (((sortByScoreDesc rs).take k).map ReRankerResult.index).Nodup := by
                  rw [List.map_take]
                  exact List.Nodup.sublist
                    (List.take_sublist k ((sortByScoreDesc rs).map ReRankerResult.index))
                    hsorted
                exact mapBackResults_pairwise hn _ out htk hc

/-- C1 (amended): `retrieveDocuments` always returns at most the desired
count of documents, and the returned contents are pairwise distinct
whenever the rerank response carries pairwise-distinct indices (which
covers the no-rerank and every fallback path); a rerank response that
repeats an index can duplicate a content string. -/
theorem retrieveDocuments_bounded (cfg : ReRankerConfig)
    (hits : List SearchHit) (call : RerankCall) (opts : RetrievalOptions) :
    (retrieveDocuments cfg hits call opts).length ≤ opts.k.getD 6 ∧
    (rerankIndicesNodup call = true →
      (retrieveDocuments cfg hits call opts).Pairwise
        (fun a b => a.content ≠ b.content)) := by
  rw [retrieveDocuments_eq]
  have hsub := minScoreFilter_sublist opts.minScore
    (if opts.useReRanker.getD cfg.useReRanker ∧
        (deduplicateHits hits).length > 0 then
      rerankWithAzure cfg call (deduplicateHits hits) (opts.k.getD 6)
    else (deduplicateHits hits).take (opts.k.getD 6))
  constructor
  · refine le_trans hsub.length_le ?_
    split
    · exact rerankWithAzure_length cfg call _ _
    · simp [List.length_take]
  · intro hi
    refine List.Pairwise.sublist hsub ?_
    have hdn := deduplicateHits_nodup hits
    split
    · exact rerankWithAzure_pairwise cfg call _ _ hdn hi
    · exact List.Pairwise.sublist
        (List.take_sublist (opts.k.getD 6) (deduplicateHits hits))
        (List.pairwise_map.mp hdn)

/-- Counterexample for C1 as stated: a rerank response repeating index 0
makes `retrieveDocuments` return the same content twice. -/
theorem retrieveDocuments_bounded_cex :
    ¬ ((retrieveDocuments cfgEnabled [hitX1, hitY]
        (RerankCall.results [⟨0, 1⟩, ⟨0, 1⟩])
        { k := some 2, minScore := none, useReRanker := none }).Pairwise
          (fun a b => a.content ≠ b.content)) := by decide

/-- Witness for C1 at a concrete rerank response with distinct indices. -/
theorem retrieveDocuments_bounded_witness :
    (retrieveDocuments cfgEnabled [hitX1, hitY]
      (RerankCall.results [⟨1, 5⟩, ⟨0, 2⟩])
      { k := some 2, minScore := none, useReRanker := none }).Pairwise
        (fun a b => a.content ≠ b.content) :=
  (retrieveDocuments_bounded cfgEnabled [hitX1, hitY]
    (RerankCall.results [⟨1, 5⟩, ⟨0, 2⟩])
    { k := some 2, minScore := none, useReRanker := none }).2 (by decide)

theorem rerankWithAzure_fallback (cfg : ReRankerConfig) (call : RerankCall)
    (hits : List SearchHit) (k : ℕ)
    (h : rerankFallsBack hits k call = true) :
    rerankWithAzure cfg call hits k = hits.take k := by
  unfold rerankWithAzure
  split
  · rfl
  · split
    · next hlen =>
        have : hits = [] := List.length_eq_zero.mp hlen
        simp [this]
    · cases call with
      | throws => rfl
      | httpError => rfl
      | results rs =>
          simp only [rerankFallsBack] at h
          by_cases h0 : rs.length = 0
          · simp only [rerankCore, if_pos h0]
          · have hne : rs.isEmpty = false := by
              cases rs with
              | nil => exact absurd rfl h0
              | cons a as => rfl
            rw [hne] at h
            simp only [Bool.false_or] at h
            cases hmb : mapBackResults hits ((sortByScoreDesc rs).take k) with
            | ok out =>
                rw [hmb] at h
                cases h
            | error e =>
                simp only [rerankCore, if_neg h0, hmb]

/-- C5: whenever the external rerank call fails (throw, non-OK status,
empty result set, or a result set whose index mapping fails),
`retrieveDocuments` still returns a list — the deduplicated hits in
their original relative order truncated to the desired count — so a
rerank failure never fails retrieval. -/
theorem retrieveDocuments_rerankFailure (cfg : ReRankerConfig)
    (hits : List SearchHit) (call : RerankCall) (opts : RetrievalOptions)
    (hf : rerankFallsBack (deduplicateHits hits) (opts.k.getD 6) call = true)
    (hm : opts.minScore = none) :
    retrieveDocuments cfg hits call opts =
      (deduplicateHits hits).take (opts.k.getD 6) ∧
    (retrieveDocuments cfg hits call opts).length ≤ opts.k.getD 6 ∧
    (retrieveDocuments cfg hits call opts).map SearchHit.content =
      (keepFirsts (hits.map SearchHit.content)).take (opts.k.getD 6) := by
  have h1 : retrieveDocuments cfg hits call opts =
      (deduplicateHits hits).take (opts.k.getD 6) := by
    rw [retrieveDocuments_eq, hm]
    show (if _ then _ else _) = _
    split
    · exact rerankWithAzure_fallback cfg call _ _ hf
    · rfl
  refine ⟨h1, ?_, ?_⟩
  · rw [h1]
    simp [List.length_take]
  · rw [h1, List.map_take, deduplicateHits_contents]

/-- Witness for C5: a throwing rerank call on a two-hit list still
yields the top deduplicated hit. -/
theorem retrieveDocuments_rerankFailure_witness :
    retrieveDocuments cfgEnabled [hitX1, hitY] RerankCall.throws
      { k := some 1, minScore := none, useReRanker := none } =
      (deduplicateHits [hitX1, hitY]).take 1 :=
  (retrieveDocuments_rerankFailure cfgEnabled [hitX1, hitY]
    RerankCall.throws { k := some 1, minScore := none, useReRanker := none }
    (by decide) rfl).1

/-! ## Summarisation strategy (C7) -/

theorem chunkDocuments_nil : chunkDocuments [] = [] := by
  rw [chunkDocuments]

theorem chunkDocuments_cons (d : SearchHit) (ds : List SearchHit) :
    chunkDocuments (d :: ds) =
      ((d :: ds).take 10) :: chunkDocuments ((d :: ds).drop 10) := by
  rw [chunkDocuments]

theorem chunkDocuments_eq_nil_iff (docs : List SearchHit) :
    chunkDocuments docs = [] ↔ docs = [] := by
  cases docs with
  | nil => simp [chunkDocuments_nil]
  | cons d ds => simp [chunkDocuments_cons]

theorem chunkDocuments_flatten (docs : List SearchHit) :
    (chunkDocuments docs).flatten = docs := by
  induction docs using chunkDocuments.induct with
  | case1 => simp [chunkDocuments_nil]
  | case2 d ds ih =>
      rw [chunkDocuments_cons, List.flatten_cons, ih, List.take_append_drop]

theorem chunkDocuments_sizes (docs : List SearchHit) :
    ∀ g ∈ chunkDocuments docs, g ≠ [] ∧ g.length ≤ 10 := by
  induction docs using chunkDocuments.induct with
  | case1 =>
      rw [chunkDocuments_nil]
      intro g hg
      cases hg
  | case2 d ds ih =>
      rw [chunkDocuments_cons]
      intro g hg
      rcases List.mem_cons.mp hg with h1 | h1
      · subst h1
        refine ⟨by simp, by simp⟩
      · exact ih g h1

theorem chunkDocuments_dropLast (docs : List SearchHit) :
    ∀ g ∈ (chunkDocuments docs).dropLast, g.length = 10 := by
  induction docs using chunkDocuments.induct with
  | case1 =>
      rw [chunkDocuments_nil]
      intro g hg
      cases hg
  | case2 d ds ih =>
      rw [chunkDocuments_cons]
      intro g hg
      cases hrest : chunkDocuments ((d :: ds).drop 10) with
      | nil =>
          rw [hrest] at hg
          cases hg
      | cons r rest =>
          rw [hrest, List.dropLast_cons₂] at hg
          rcases List.mem_cons.mp hg with h1 | h1
          · subst h1
            have hne : (d :: ds).drop 10 ≠ [] := by
              intro hc
              rw [hc, chunkDocuments_nil] at hrest
              cases hrest
            have hlen : 10 < (d :: ds).length := by
              by_contra hle
              push_neg at hle
              exact hne (List.drop_eq_nil_of_le hle)
            simp only [List.length_take, List.length_cons] at hlen ⊢
            omega
          · rw [← hrest] at h1
            exact ih g h1

/-- C7 (amended): for any document set needing summarisation (and in
particular any set of more than 10 documents) the pipeline issues a
single direct summarisation call over the whole set and no combine
call; the in-order partition into groups of 10 (last group possibly
smaller) followed by one combine call is implemented by
`mapReduceSummarize`, which the orchestrator never invokes. -/
theorem pipeline_summarization_strategy (docs : List SearchHit)
    (c : QuestionComplexity) (oracle : List SearchHit → String) :
    (10 < docs.length →
      orchestratorSummaryCalls docs c = [SummaryCall.direct docs 2000]) ∧
    (chunkDocuments docs).flatten = docs ∧
    (∀ g ∈ chunkDocuments docs, g ≠ [] ∧ g.length ≤ 10) ∧
    (∀ g ∈ (chunkDocuments docs).dropLast, g.length = 10) ∧
    (mapReduceSummarizeCalls docs oracle).length =
      (chunkDocuments docs).length + 1 ∧
    (mapReduceSummarizeCalls docs oracle).countP
      (fun call => match call with
        | SummaryCall.combine _ => true
        | _ => false) = 1 ∧
    (orchestratorSummaryCalls docs c).countP
      (fun call => match call with
        | SummaryCall.combine _ => true
        | _ => false) = 0 := by
  refine ⟨?_, chunkDocuments_flatten docs, chunkDocuments_sizes docs,
    chunkDocuments_dropLast docs, ?_, ?_, ?_⟩
  · intro hlen
    unfold orchestratorSummaryCalls
    rw [if_pos ⟨(needsSummarization_iff docs c).mpr (Or.inl hlen), by omega⟩]
    rfl
  · simp [mapReduceSummarizeCalls]
  · simp only [mapReduceSummarizeCalls, List.countP_append]
    rw [List.countP_eq_zero.mpr ?_]
    · rfl
    · intro call hc
      obtain ⟨g, _, hg⟩ := List.mem_map.mp hc
      rw [← hg]
      simp
  · unfold orchestratorSummaryCalls
    split
    · rfl
    · rfl

/-- Counterexample for C7 as stated: for an eleven-document set the
pipeline issues exactly one direct summarisation call covering all
eleven documents — no partition into groups of 10 and no combine
call. -/
theorem pipeline_summarization_cex :
    needsSummarization (exampleDocs 11) QuestionComplexity.simple = true ∧
    orchestratorSummaryCalls (exampleDocs 11) QuestionComplexity.simple =
      [SummaryCall.direct (exampleDocs 11) 2000] ∧
    (exampleDocs 11).length = 11 ∧
    (orchestratorSummaryCalls (exampleDocs 11)
        QuestionComplexity.simple).countP
      (fun call => match call with
        | SummaryCall.combine _ => true
        | _ => false) = 0 := by
  refine ⟨by decide, by decide, by decide, by decide⟩

/-- Witness for C7 at concrete inputs: 25 documents need a single direct
pipeline call, and the first map-reduce chunk of 25 documents is a full
group of 10. -/
theorem pipeline_summarization_strategy_witness :
    orchestratorSummaryCalls (exampleDocs 25) QuestionComplexity.simple =
      [SummaryCall.direct (exampleDocs 25) 2000] ∧
    (exampleDocs 10).length = 10 :=
  ⟨(pipeline_summarization_strategy (exampleDocs 25)
      QuestionComplexity.simple (fun _ => "s")).1 (by decide),
   (pipeline_summarization_strategy (exampleDocs 25)
      QuestionComplexity.simple (fun _ => "s")).2.2.2.1 (exampleDocs 10)
      (by
        simp only [exampleDocs, List.replicate]
        simp [chunkDocuments_cons, chunkDocuments_nil])⟩

/-! ## Orchestrator and the /query route (C3) -/

/-- Counterexample for C3 as stated: on an empty retrieval the simple
orchestrator still invokes the answerer — with an empty document list —
and completes with a normal answer result instead of a not-found
outcome. -/
theorem orchestrator_emptyRetrieval_cex :
    orchestratorAnswerCall "q" [] QuestionComplexity.moderate "" none none =
      some { question := "q", documents := some ([] : List SearchHit),
             summarizedContext := none, includeText := none,
             category := none } ∧
    executeSimple cfgDisabled "sys" "q" "rid" ClassifierOutcome.failure []
      RerankCall.throws none none (Except.ok "s") (some "ans") =
      Except.ok
        { answer := "ans".trim, citations := [], requestId := "rid",
          category := QuestionCategory.general,
          complexity := QuestionComplexity.moderate,
          documentsRetrieved := 0, usedSummarization := false } := by
  refine ⟨rfl, rfl⟩

/-- C3 (amended): the not-found short circuit lives in the `/query`
route — on an empty retrieval it answers 404 without invoking the
answer stage — while the orchestrator always invokes the answerer,
passing whatever document list retrieval produced. -/
theorem queryRoute_notFound_spec (requestId : String)
    (rag : Except String (String × List Citation)) (question : String)
    (documents : List SearchHit) (complexity : QuestionComplexity)
    (summaryText : String) (includeText : Option Bool)
    (category : Option QuestionCategory) :
    queryRoute [] requestId rag = QueryResponse.notFound requestId ∧
    queryRouteAnswerCall [] = none ∧
    (orchestratorAnswerCall question documents complexity summaryText
        includeText category).isSome = true :=
  ⟨rfl, rfl, rfl⟩

/-! ## Classifier (C6) -/

/-- C6: `classifyQuestion` is total (the embedding returns a result for
every outcome of the external call): persistent failure yields the
default general/moderate classification with confidence 0.5, and a
validated response below the 0.6 confidence threshold yields
general/moderate carrying the confidence of that response. -/
theorem classifyQuestion_fallbacks (question requestId : String)
    (v : ValidatedClassification) :
    ((classifyQuestion question requestId ClassifierOutcome.failure).category =
        QuestionCategory.general ∧
      (classifyQuestion question requestId
          ClassifierOutcome.failure).complexity =
        QuestionComplexity.moderate ∧
      (classifyQuestion question requestId
          ClassifierOutcome.failure).confidence = 1 / 2) ∧
    (callContentSafety (truncateQuestion question) = true →
      v.confidence < 6 / 10 →
      classifyQuestion question requestId (ClassifierOutcome.validated v) =
        { category := QuestionCategory.general
          complexity := QuestionComplexity.moderate
          confidence := v.confidence
          reasoning := "Low confidence fallback"
          requestId := requestId }) := by
  constructor
  · by_cases hcs : callContentSafety (truncateQuestion question) = true
    · simp [classifyQuestion, hcs, createFallbackResult]
    · simp [classifyQuestion, hcs, createFallbackResult]
  · intro hs hc
    simp [classifyQuestion, hs, hc]

/-- Witness for C6: a low-confidence validated response on a safe
question is downgraded to general/moderate with its own confidence. -/
theorem classifyQuestion_fallbacks_witness :
    classifyQuestion "What is the leave policy" "rid"
      (ClassifierOutcome.validated
        { category := QuestionCategory.hr
          complexity := QuestionComplexity.simple
          confidence := 1 / 2
          reasoning := "hr question" }) =
      { category := QuestionCategory.general
        complexity := QuestionComplexity.moderate
        confidence := 1 / 2
        reasoning := "Low confidence fallback"
        requestId := "rid" } :=
  (classifyQuestion_fallbacks "What is the leave policy" "rid"
    { category := QuestionCategory.hr
      complexity := QuestionComplexity.simple
      confidence := 1 / 2
      reasoning := "hr question" }).2 (by decide) (by norm_num)

/-! ## Answerer (C8) -/

/-- C8: when the answerer is invoked with a summarised context and no
document list, a successful result carries exactly the single synthetic
summary citation. -/
theorem generateAnswer_summary_citations (systemMessage : String)
    (input : AnswerInput) (requestId : String) (chat : Option String)
    (r : AnswerResult) (hd : input.documents = none)
    (_hs : input.summarizedContext.isSome = true)
    (hr : generateAnswer systemMessage input requestId chat = Except.ok r) :
    r.citations =
      [{ id := "summarized", score := 1,
         filename := "Multiple documents (summarized)",
         category := "Summary", snippet := none }] := by
  simp only [generateAnswer, hd] at hr
  cases chat with
  | none => cases hr
  | some answer =>
      dsimp only [] at hr
      split at hr
      · cases hr
      · cases hr
        rfl

/-- Witness for C8 at a concrete summarised input. -/
theorem generateAnswer_summary_citations_witness :
    ({ answer := "a".trim,
       citations :=
         [{ id := "summarized", score := 1,
            filename := "Multiple documents (summarized)",
            category := "Summary", snippet := none }],
       requestId := "rid" } : AnswerResult).citations =
      [{ id := "summarized", score := 1,
         filename := "Multiple documents (summarized)",
         category := "Summary", snippet := none }] :=
  generateAnswer_summary_citations "sys"
    { question := "q", documents := none, summarizedContext := some "s",
      includeText := none, category := none }
    "rid" (some "a")
    { answer := "a".trim,
      citations :=
        [{ id := "summarized", score := 1,
           filename := "Multiple documents (summarized)",
           category := "Summary", snippet := none }],
      requestId := "rid" }
    rfl rfl rfl
